import Mathlib

/-!
Shallow embedding of the editorconfig-vscode extension core
(`src/extension.ts` and the transformation modules): the
settings translator (`Utils.fromEditorConfig`, `Utils.toEditorConfig`,
`Utils.resolveTabSize`), the save-time text transforms
(`trimTrailingWhitespace`, `insertFinalNewlineTransform`), the
document-to-config cache (`DocumentWatcher`), and the two
`generateEditorConfig` variants.

JavaScript values flowing through these functions are modelled by
`JSVal` (undefined, booleans, numbers, strings, and NaN as produced by
`parseInt`), with JS truthiness made explicit.
-/

/-- A JavaScript value as it occurs in this extension's data flow:
`undef` models `undefined` (an absent property), `nan` models the
not-a-number result of `parseInt` on non-numeric input. -/
inductive JSVal where
  | undef
  | nan
  | bool (b : Bool)
  | num (n : Int)
  | str (s : String)
deriving DecidableEq, Repr

/-- JS truthiness: `undefined`, `NaN`, `false`, `0` and `""` are falsy,
everything else here is truthy. -/
def JSVal.truthy : JSVal → Bool
  | .undef => false
  | .nan => false
  | .bool b => b
  | .num n => n != 0
  | .str s => s != ""

/-- The JS `||` operator on our values: the left operand if truthy,
otherwise the right operand. -/
def jsOr (a b : JSVal) : JSVal :=
  if a.truthy then a else b

/-- JS string coercion (`v + ''` / template interpolation) for the value
shapes that occur here. -/
def jsToString : JSVal → String
  | .undef => "undefined"
  | .nan => "NaN"
  | .bool true => "true"
  | .bool false => "false"
  | .num n => toString n
  | .str s => s

/-- The `editorconfig.knownProps` record: each property is a JS value,
`undef` when the property is absent. -/
structure EditorConfig where
  indent_style : JSVal := .undef
  indent_size : JSVal := .undef
  tab_width : JSVal := .undef
  end_of_line : JSVal := .undef
  insert_final_newline : JSVal := .undef
  trim_trailing_whitespace : JSVal := .undef
deriving DecidableEq, Repr

/-- The `EditorSettings` interface of `extension.ts`: the host-wide
defaults `{tabSize, insertSpaces}`. -/
structure EditorSettings where
  tabSize : JSVal
  insertSpaces : JSVal
deriving DecidableEq, Repr

/-- The host editor options shape `{insertSpaces, tabSize}` pushed to
`textEditor.options` (and consumed by `Utils.toEditorConfig`). -/
structure HostOptions where
  insertSpaces : JSVal
  tabSize : JSVal
deriving DecidableEq, Repr

/-- Whether a character is matched by the JS regex class `\s` (which
already contains U+FEFF and U+00A0, the two characters the source
lists again explicitly in its trailing-whitespace character class). -/
def isTrimmable (c : Char) : Bool :=
  c == ' ' || c == '\t' || c == '\n' || c == '\r' || c == '\x0b' || c == '\x0c' ||
  c == '\u00a0' || c == '\ufeff' || c == '\u1680' ||
  ('\u2000' ≤ c && c ≤ '\u200a') ||
  c == '\u2028' || c == '\u2029' || c == '\u202f' || c == '\u205f' || c == '\u3000'

/-- Model of JavaScript `parseInt(s, 10)`: skip leading whitespace, an
optional sign, then the longest prefix of ASCII digits; `NaN` when that
prefix is empty. -/
def jsParseInt10 (s : String) : JSVal :=
  let l := s.data.dropWhile isTrimmable
  let signAndRest : Int × List Char :=
    match l with
    | '-' :: r => (-1, r)
    | '+' :: r => (1, r)
    | r => (1, r)
  let digits := signAndRest.2.takeWhile (fun c => c.isDigit)
  if digits.isEmpty then .nan
  else .num (signAndRest.1 * digits.foldl (fun acc c => acc * 10 + (c.toNat - 48 : Int)) 0)

/-- `Utils.resolveTabSize`:
`(tabSize === 'auto') ? 4 : parseInt(tabSize + '', 10)`. -/
def resolveTabSize (tabSize : JSVal) : JSVal :=
  if tabSize == .str "auto" then .num 4 else jsParseInt10 (jsToString tabSize)

/-- `Utils.fromEditorConfig` (the spec's `resolveToHostOptions`):
`insertSpaces` is `indent_style !== 'tab'` behind a truthiness test on
`indent_style`, falling back to the defaults; `tabSize` is the JS `||`
chain `tab_width || indent_size || defaults.tabSize`. -/
def fromEditorConfig (config : EditorConfig) (defaults : EditorSettings) : HostOptions :=
  { insertSpaces :=
      if config.indent_style.truthy
      then .bool (config.indent_style != .str "tab")
      else defaults.insertSpaces
    tabSize := jsOr config.tab_width (jsOr config.indent_size defaults.tabSize) }

/-- `Utils.toEditorConfig` (the spec's `hostOptionsToConfigProperties`):
a switch on `options.insertSpaces` with cases `true`, `false` and
`'auto'` (the latter two share a block), defaulting to the empty
mapping. -/
def toEditorConfig (options : HostOptions) : EditorConfig :=
  if options.insertSpaces == .bool true then
    { indent_style := .str "space", indent_size := resolveTabSize options.tabSize }
  else if options.insertSpaces == .bool false || options.insertSpaces == .str "auto" then
    { indent_style := .str "tab", tab_width := resolveTabSize options.tabSize }
  else
    {}

/-- C1 counterexample input: a config whose `tab_width` is present but
`0` (falsy in JS). -/
def zeroTabWidthConfig : EditorConfig :=
  { tab_width := .num 0, indent_size := .num 3 }

/-- **C1** (counterexample): the claim reads the `tabSize` chain as
"`config.tab_width` when present", but the source uses the JS `||`
chain, which skips a present-but-zero `tab_width`: with
`tab_width = 0` and `indent_size = 3`, `tab_width` is present yet the
result's `tabSize` is not `tab_width`. -/
theorem fromEditorConfig_present_counterexample :
    zeroTabWidthConfig.tab_width ≠ JSVal.undef ∧
    (fromEditorConfig zeroTabWidthConfig ⟨JSVal.num 5, JSVal.bool true⟩).tabSize ≠
      zeroTabWidthConfig.tab_width := by
  decide

/-- **C1** (amended): `fromEditorConfig` is total; `insertSpaces` is
`indent_style != "tab"` when `indent_style` is truthy and
`defaults.insertSpaces` otherwise; `tabSize` is `tab_width` when
truthy, else `indent_size` when truthy, else `defaults.tabSize`; and on
the empty config with defaults `{tabSize: 2, insertSpaces: true}` it
returns exactly `{tabSize: 2, insertSpaces: true}`. -/
theorem fromEditorConfig_spec :
    (∀ (config : EditorConfig) (defaults : EditorSettings),
      (config.indent_style.truthy = true →
        (fromEditorConfig config defaults).insertSpaces =
          .bool (config.indent_style != .str "tab")) ∧
      (config.indent_style.truthy = false →
        (fromEditorConfig config defaults).insertSpaces = defaults.insertSpaces) ∧
      (config.tab_width.truthy = true →
        (fromEditorConfig config defaults).tabSize = config.tab_width) ∧
      (config.tab_width.truthy = false → config.indent_size.truthy = true →
        (fromEditorConfig config defaults).tabSize = config.indent_size) ∧
      (config.tab_width.truthy = false → config.indent_size.truthy = false →
        (fromEditorConfig config defaults).tabSize = defaults.tabSize)) ∧
    fromEditorConfig {} ⟨JSVal.num 2, JSVal.bool true⟩ = ⟨JSVal.bool true, JSVal.num 2⟩ := by
  refine ⟨fun config defaults => ?_, by decide⟩
  refine ⟨fun h => ?_, fun h => ?_, fun h => ?_, fun h h' => ?_, fun h h' => ?_⟩ <;>
    simp [fromEditorConfig, jsOr, h]
  · simp [h']
  · simp [h']

/-- **C1** (witness): the amended theorem applied at concrete inputs. -/
theorem fromEditorConfig_spec_witness :
    (fromEditorConfig { indent_style := .str "tab", tab_width := .num 8 }
      ⟨JSVal.num 2, JSVal.bool true⟩).insertSpaces = .bool false ∧
    (fromEditorConfig { indent_style := .str "tab", tab_width := .num 8 }
      ⟨JSVal.num 2, JSVal.bool true⟩).tabSize = JSVal.num 8 := by
  refine ⟨?_, ?_⟩
  · have h := (fromEditorConfig_spec.1 { indent_style := .str "tab", tab_width := .num 8 }
      ⟨JSVal.num 2, JSVal.bool true⟩).1 (by decide)
    simpa using h
  · have h := ((fromEditorConfig_spec.1 { indent_style := .str "tab", tab_width := .num 8 }
      ⟨JSVal.num 2, JSVal.bool true⟩).2.2.1) (by decide)
    simpa using h

/-- **C4**: `toEditorConfig {insertSpaces: true, tabSize: 4}` is exactly
`{indent_style: "space", indent_size: 4}`, and `fromEditorConfig` of
that result with any defaults is exactly
`{insertSpaces: true, tabSize: 4}`. -/
theorem toEditorConfig_roundTrip :
    toEditorConfig ⟨JSVal.bool true, JSVal.num 4⟩ =
      { indent_style := .str "space", indent_size := .num 4 } ∧
    ∀ defaults : EditorSettings,
      fromEditorConfig (toEditorConfig ⟨JSVal.bool true, JSVal.num 4⟩) defaults =
        ⟨JSVal.bool true, JSVal.num 4⟩ := by
  refine ⟨by decide, fun defaults => ?_⟩
  show fromEditorConfig { indent_style := .str "space", indent_size := .num 4 } defaults = _
  simp [fromEditorConfig, jsOr, JSVal.truthy]

/-- **C6**: `toEditorConfig` emits `{indent_style: "space",
indent_size: resolveTabSize tabSize}` when `insertSpaces === true`,
`{indent_style: "tab", tab_width: resolveTabSize tabSize}` when
`insertSpaces === false` or `=== "auto"`, and the empty mapping for any
other value. -/
theorem toEditorConfig_cases :
    ∀ options : HostOptions,
      (options.insertSpaces = .bool true →
        toEditorConfig options =
          { indent_style := .str "space", indent_size := resolveTabSize options.tabSize }) ∧
      ((options.insertSpaces = .bool false ∨ options.insertSpaces = .str "auto") →
        toEditorConfig options =
          { indent_style := .str "tab", tab_width := resolveTabSize options.tabSize }) ∧
      (options.insertSpaces ≠ .bool true → options.insertSpaces ≠ .bool false →
        options.insertSpaces ≠ .str "auto" → toEditorConfig options = {}) := by
  intro options
  refine ⟨fun h => ?_, fun h => ?_, fun h1 h2 h3 => ?_⟩
  · simp [toEditorConfig, h]
  · rcases h with h | h <;> simp [toEditorConfig, h]
  · simp [toEditorConfig, h1, h2, h3]

/-- **C6** (witness): the three cases at concrete inputs. -/
theorem toEditorConfig_cases_witness :
    toEditorConfig ⟨JSVal.bool true, JSVal.num 4⟩ =
      { indent_style := .str "space", indent_size := resolveTabSize (JSVal.num 4) } ∧
    toEditorConfig ⟨JSVal.str "auto", JSVal.num 4⟩ =
      { indent_style := .str "tab", tab_width := resolveTabSize (JSVal.num 4) } ∧
    toEditorConfig ⟨JSVal.num 7, JSVal.num 4⟩ = {} :=
  ⟨(toEditorConfig_cases ⟨JSVal.bool true, JSVal.num 4⟩).1 rfl,
   (toEditorConfig_cases ⟨JSVal.str "auto", JSVal.num 4⟩).2.1 (Or.inr rfl),
   (toEditorConfig_cases ⟨JSVal.num 7, JSVal.num 4⟩).2.2 (by decide) (by decide) (by decide)⟩

/-- **C7**: `resolveTabSize` maps the sentinel `"auto"` to `4` and
parses every other input as a base-10 integer (the `parseInt(·, 10)`
semantics applied to the string coercion of the input); in particular
`resolveTabSize "auto" = 4` and `resolveTabSize "8" = 8`. -/
theorem resolveTabSize_spec :
    resolveTabSize (.str "auto") = .num 4 ∧
    resolveTabSize (.str "8") = .num 8 ∧
    ∀ v : JSVal, v ≠ .str "auto" → resolveTabSize v = jsParseInt10 (jsToString v) := by
  refine ⟨by decide, by decide, fun v h => ?_⟩
  simp [resolveTabSize, h]

/-- **C7** (witness): the base-10 parse clause at a concrete input. -/
theorem resolveTabSize_spec_witness :
    resolveTabSize (.num 6) = jsParseInt10 (jsToString (.num 6)) :=
  resolveTabSize_spec.2.2 (.num 6) (by decide)

/-- `trimTrailingWhitespace` from `extension.ts`:
`input.replace(/[\s﻿\xA0]+$/g, '')`, i.e. drop the maximal run of
trimmable characters at the end of the string. -/
def trimTrailingWhitespace (input : String) : String :=
  ⟨(input.data.reverse.dropWhile isTrimmable).reverse⟩

/-- One deletion edit issued by the trim transform: delete columns
`[startCol, endCol)` of line `line`. -/
structure TrimEdit where
  line : Nat
  startCol : Nat
  endCol : Nat
deriving DecidableEq, Repr

/-- `trimLineTrailingWhitespace` of `trimTrailingWhitespaceTransform`:
compare the line with its trimmed form; when unchanged issue nothing,
otherwise issue a deletion from the trimmed length to the full
length. -/
def trimLineEdit (lineNumber : Nat) (text : String) : Option TrimEdit :=
  let trimmedLine := trimTrailingWhitespace text
  if trimmedLine == text then none
  else some ⟨lineNumber, trimmedLine.length, text.length⟩

/-- The `for` loop of `trimTrailingWhitespaceTransform`: visit every
line in order, collecting the per-line edits. -/
def trimLinesEdits : List String → Nat → List TrimEdit
  | [], _ => []
  | text :: rest, i =>
    match trimLineEdit i text with
    | none => trimLinesEdits rest (i + 1)
    | some e => e :: trimLinesEdits rest (i + 1)

/-- `trimTrailingWhitespaceTransform`: no edits when the host's own
trim-on-save setting is active or `trim_trailing_whitespace` is falsy,
otherwise the per-line edits over the whole document. -/
def trimTransformEdits (editorTrimsWhitespace : Bool) (cfg : EditorConfig)
    (doc : List String) : List TrimEdit :=
  if editorTrimsWhitespace || !cfg.trim_trailing_whitespace.truthy then []
  else trimLinesEdits doc 0

/-- The document after one run of the trim transform: each issued edit
deletes the trailing span of its line, so an active pass leaves every
line trimmed; a guarded-off pass changes nothing. -/
def applyTrimPass (editorTrimsWhitespace : Bool) (cfg : EditorConfig)
    (doc : List String) : List String :=
  if editorTrimsWhitespace || !cfg.trim_trailing_whitespace.truthy then doc
  else doc.map trimTrailingWhitespace

/-- Dropping with the same predicate twice is the same as dropping
once. -/
theorem dropWhile_self_idem (p : α → Bool) (l : List α) :
    (l.dropWhile p).dropWhile p = l.dropWhile p := by
  induction l with
  | nil => rfl
  | cons x xs ih =>
    by_cases h : p x = true
    · simp [List.dropWhile_cons, h, ih]
    · simp [List.dropWhile_cons, h]

/-- Trimming a line twice equals trimming it once. -/
theorem trimTrailingWhitespace_idem (s : String) :
    trimTrailingWhitespace (trimTrailingWhitespace s) = trimTrailingWhitespace s := by
  have h : (trimTrailingWhitespace s).data.reverse.dropWhile isTrimmable =
      s.data.reverse.dropWhile isTrimmable := by
    show ((s.data.reverse.dropWhile isTrimmable).reverse).reverse.dropWhile isTrimmable = _
    rw [List.reverse_reverse, dropWhile_self_idem]
  show (⟨((trimTrailingWhitespace s).data.reverse.dropWhile isTrimmable).reverse⟩ : String) =
    trimTrailingWhitespace s
  rw [h]
  rfl

/-- A trimmed line produces no edit. -/
theorem trimLineEdit_trimmed (i : Nat) (s : String) :
    trimLineEdit i (trimTrailingWhitespace s) = none := by
  simp [trimLineEdit, trimTrailingWhitespace_idem]

/-- The per-line loop over an already-trimmed document issues no
edits. -/
theorem trimLinesEdits_map_trim (doc : List String) (i : Nat) :
    trimLinesEdits (doc.map trimTrailingWhitespace) i = [] := by
  induction doc generalizing i with
  | nil => rfl
  | cons text rest ih => simp [trimLinesEdits, trimLineEdit_trimmed, ih]

/-- The string splits as its trimmed part followed by the trailing run
of trimmable characters. -/
theorem trim_decomp (s : String) :
    s.data = (trimTrailingWhitespace s).data ++
      (s.data.reverse.takeWhile isTrimmable).reverse := by
  have h :
      (s.data.reverse.takeWhile isTrimmable ++ s.data.reverse.dropWhile isTrimmable).reverse
        = s.data := by
    rw [List.takeWhile_append_dropWhile, List.reverse_reverse]
  calc s.data
      = (s.data.reverse.takeWhile isTrimmable ++
          s.data.reverse.dropWhile isTrimmable).reverse := h.symm
    _ = (s.data.reverse.dropWhile isTrimmable).reverse ++
          (s.data.reverse.takeWhile isTrimmable).reverse := List.reverse_append _ _
    _ = (trimTrailingWhitespace s).data ++
          (s.data.reverse.takeWhile isTrimmable).reverse := rfl

/-- The first `(trim s).length` characters of `s` are exactly the
trimmed string. -/
theorem trim_take_eq (s : String) :
    s.data.take (trimTrailingWhitespace s).length = (trimTrailingWhitespace s).data := by
  conv_lhs => rw [trim_decomp s]
  exact List.take_left _ _

/-- Every character past the trimmed length is trimmable. -/
theorem trim_drop_all_trimmable (s : String) :
    (s.data.drop (trimTrailingWhitespace s).length).all isTrimmable = true := by
  conv_lhs => rw [trim_decomp s]
  rw [show (trimTrailingWhitespace s).length =
        ((trimTrailingWhitespace s).data).length from rfl, List.drop_left]
  rw [List.all_eq_true]
  intro c hc
  exact List.mem_takeWhile_imp (List.mem_reverse.mp hc)

/-- The head surviving `dropWhile` fails the predicate. -/
theorem head_dropWhile_false (p : α → Bool) :
    ∀ (l : List α) (c : α), (l.dropWhile p).head? = some c → p c = false := by
  intro l
  induction l with
  | nil => intro c h; simp [List.dropWhile] at h
  | cons x xs ih =>
    intro c h
    by_cases hx : p x = true
    · exact ih c (by simpa [List.dropWhile_cons, hx] using h)
    · rw [List.dropWhile_cons, if_neg (by simp [hx])] at h
      simp at h
      subst h
      simpa using hx

/-- The last character of a trimmed line, when it exists, is not
trimmable (the deleted span is maximal). -/
theorem trim_getLast_not_trimmable (s : String) :
    ∀ c, (trimTrailingWhitespace s).data.getLast? = some c → isTrimmable c = false := by
  intro c h
  have h' : (s.data.reverse.dropWhile isTrimmable).head? = some c := by
    rw [← List.getLast?_reverse]
    exact h
  exact head_dropWhile_false isTrimmable _ c h'

/-- Membership in the per-line loop's output determines the edit's
shape. -/
theorem mem_trimLinesEdits :
    ∀ (doc : List String) (i : Nat) (e : TrimEdit), e ∈ trimLinesEdits doc i →
      ∃ j l, doc[j]? = some l ∧
        e = ⟨i + j, (trimTrailingWhitespace l).length, l.length⟩ ∧
        trimTrailingWhitespace l ≠ l := by
  intro doc
  induction doc with
  | nil => intro i e h; simp [trimLinesEdits] at h
  | cons text rest ih =>
    intro i e h
    by_cases htext : trimTrailingWhitespace text = text
    · rw [show trimLinesEdits (text :: rest) i = trimLinesEdits rest (i + 1) by
        simp [trimLinesEdits, trimLineEdit, htext]] at h
      obtain ⟨j, l, hget, he, hne⟩ := ih (i + 1) e h
      exact ⟨j + 1, l, by simpa using hget, by simpa [Nat.add_assoc, Nat.add_comm 1 j] using he, hne⟩
    · rw [show trimLinesEdits (text :: rest) i =
          ⟨i, (trimTrailingWhitespace text).length, text.length⟩ :: trimLinesEdits rest (i + 1) by
        simp [trimLinesEdits, trimLineEdit, htext]] at h
      rcases List.mem_cons.mp h with h | h
      · exact ⟨0, text, by simp, by simpa using h, htext⟩
      · obtain ⟨j, l, hget, he, hne⟩ := ih (i + 1) e h
        exact ⟨j + 1, l, by simpa using hget, by simpa [Nat.add_assoc, Nat.add_comm 1 j] using he, hne⟩

/-- **C5**: trimming is idempotent (per line, and the whole transform
issues no edits on a second pass over the document produced by the
first), and each issued edit deletes exactly the maximal
trailing-whitespace span of a changed line. -/
theorem trimTransform_idem_spec :
    (∀ s, trimTrailingWhitespace (trimTrailingWhitespace s) = trimTrailingWhitespace s) ∧
    (∀ (etw : Bool) (cfg : EditorConfig) (doc : List String),
      trimTransformEdits etw cfg (applyTrimPass etw cfg doc) = []) ∧
    (∀ (etw : Bool) (cfg : EditorConfig) (doc : List String) (e : TrimEdit),
      e ∈ trimTransformEdits etw cfg doc →
      ∃ l, doc[e.line]? = some l ∧ trimTrailingWhitespace l ≠ l ∧
        e.startCol = (trimTrailingWhitespace l).length ∧
        e.endCol = l.length ∧
        l.data.take e.startCol = (trimTrailingWhitespace l).data ∧
        (l.data.drop e.startCol).all isTrimmable = true ∧
        ∀ c, (trimTrailingWhitespace l).data.getLast? = some c → isTrimmable c = false) := by
  refine ⟨trimTrailingWhitespace_idem, fun etw cfg doc => ?_, fun etw cfg doc e h => ?_⟩
  · by_cases hg : (etw || !cfg.trim_trailing_whitespace.truthy) = true
    · simp [trimTransformEdits, hg]
    · simp only [applyTrimPass, trimTransformEdits, if_neg hg]
      exact trimLinesEdits_map_trim doc 0
  · rw [trimTransformEdits] at h
    by_cases hg : (etw || !cfg.trim_trailing_whitespace.truthy) = true
    · rw [if_pos hg] at h; simp at h
    · rw [if_neg hg] at h
      obtain ⟨j, l, hget, he, hne⟩ := mem_trimLinesEdits doc 0 e h
      refine ⟨l, ?_, hne, ?_, ?_, ?_, ?_, trim_getLast_not_trimmable l⟩
      · rw [he]; simpa using hget
      · rw [he]
      · rw [he]
      · rw [he]; exact trim_take_eq l
      · rw [he]; exact trim_drop_all_trimmable l

/-- **C5** (witness): the edit-shape clause at the concrete document
`["a "]`, whose single edit is the deletion of the trailing space. -/
theorem trimTransform_idem_spec_witness :
    ∃ l, (["a "] : List String)[(⟨0, 1, 2⟩ : TrimEdit).line]? = some l ∧
      trimTrailingWhitespace l ≠ l ∧
      (⟨0, 1, 2⟩ : TrimEdit).startCol = (trimTrailingWhitespace l).length ∧
      (⟨0, 1, 2⟩ : TrimEdit).endCol = l.length ∧
      l.data.take (⟨0, 1, 2⟩ : TrimEdit).startCol = (trimTrailingWhitespace l).data ∧
      (l.data.drop (⟨0, 1, 2⟩ : TrimEdit).startCol).all isTrimmable = true ∧
      ∀ c, (trimTrailingWhitespace l).data.getLast? = some c → isTrimmable c = false :=
  trimTransform_idem_spec.2.2 false { trim_trailing_whitespace := .bool true } ["a "]
    ⟨0, 1, 2⟩ (by decide)

/-- Outcome of the final-newline transform: no edit, one insertion at
(line, col) of the given text, or a thrown TypeError while computing
the newline string. -/
inductive FinalNewlineResult where
  | noop
  | insert (line : Nat) (col : Nat) (text : String)
  | error
deriving DecidableEq, Repr

/-- ASCII lowercasing of a string, character by character: the effect
of JS `toLowerCase` on the values compared against `"cr"`/`"crlf"`. -/
def jsStrToLower (s : String) : String :=
  ⟨s.data.map Char.toLower⟩

/-- JS `v.toLowerCase()`: defined on strings, a TypeError (`none`) on
any non-string value such as `undefined`. -/
def jsToLowerCase : JSVal → Option String
  | .str s => some (jsStrToLower s)
  | _ => none

/-- The `newline` helper:
`{cr: '\r', crlf: '\r\n'}[editorconfig.end_of_line.toLowerCase()] || '\n'`;
`none` models the TypeError thrown when `end_of_line` is not a
string. -/
def newline (cfg : EditorConfig) : Option String :=
  (jsToLowerCase cfg.end_of_line).map fun k =>
    if k == "cr" then "\r" else if k == "crlf" then "\r\n" else "\n"

/-- `insertFinalNewlineTransform`: resolve early when
`insert_final_newline` is falsy or the document has no lines or the
last line is empty; otherwise insert the configured newline at the end
of the last line (failing when `newline` throws). -/
def insertFinalNewlineTransform (cfg : EditorConfig) (doc : List String) : FinalNewlineResult :=
  if !cfg.insert_final_newline.truthy || doc.length == 0 then .noop
  else if (doc.getD (doc.length - 1) "").length < 1 then .noop
  else
    match newline cfg with
    | some nl => .insert (doc.length - 1) (doc.getD (doc.length - 1) "").length nl
    | none => .error

/-- C2 counterexample input: `insert_final_newline` is true but
`end_of_line` is absent. -/
def missingEolConfig : EditorConfig :=
  { insert_final_newline := .bool true }

/-- **C2** (counterexample): with `insert_final_newline = true` and no
`end_of_line`, the claim says `\n` is appended ("anything
unrecognized"), but the source evaluates
`editorconfig.end_of_line.toLowerCase()` on `undefined` and fails
instead of inserting. -/
theorem insertFinalNewline_counterexample :
    insertFinalNewlineTransform missingEolConfig ["x"] = .error ∧
    insertFinalNewlineTransform missingEolConfig ["x"] ≠ .insert 0 1 "\n" := by
  decide

/-- **C2** (amended): the transform is a no-op exactly when
`insert_final_newline` is not truthy, or the document has zero lines,
or the last line has length zero; in every other case, when
`end_of_line` holds a string it inserts at the end of the last line
exactly one newline chosen case-insensitively (`\r` for `cr`, `\r\n`
for `crlf`, `\n` for any other string), and when `end_of_line` is not
a string the transform fails instead of appending. -/
theorem insertFinalNewline_spec :
    ∀ (cfg : EditorConfig) (doc : List String),
      (insertFinalNewlineTransform cfg doc = .noop ↔
        cfg.insert_final_newline.truthy = false ∨ doc.length = 0 ∨
          (doc.getD (doc.length - 1) "").length = 0) ∧
      (cfg.insert_final_newline.truthy = true → doc.length ≠ 0 →
        (doc.getD (doc.length - 1) "").length ≠ 0 →
        (∀ s, cfg.end_of_line = .str s →
          insertFinalNewlineTransform cfg doc =
            .insert (doc.length - 1) (doc.getD (doc.length - 1) "").length
              (if jsStrToLower s == "cr" then "\r"
               else if jsStrToLower s == "crlf" then "\r\n" else "\n")) ∧
        ((∀ s, cfg.end_of_line ≠ .str s) →
          insertFinalNewlineTransform cfg doc = .error)) := by
  intro cfg doc
  by_cases h1 : cfg.insert_final_newline.truthy = true
  · by_cases h2 : doc.length = 0
    · have hc1 : (!cfg.insert_final_newline.truthy || doc.length == 0) = true := by
        simp [h2]
      have hres : insertFinalNewlineTransform cfg doc = .noop := by
        unfold insertFinalNewlineTransform
        rw [hc1]
        rfl
      exact ⟨⟨fun _ => Or.inr (Or.inl h2), fun _ => hres⟩, fun _ hne => absurd h2 hne⟩
    · have hc1 : (!cfg.insert_final_newline.truthy || doc.length == 0) = false := by
        simp [h1, h2]
      by_cases h3 : (doc.getD (doc.length - 1) "").length = 0
      · have hc2 : (doc.getD (doc.length - 1) "").length < 1 := by omega
        have hres : insertFinalNewlineTransform cfg doc = .noop := by
          unfold insertFinalNewlineTransform
          rw [hc1]
          simp only [Bool.false_eq_true, if_false]
          rw [if_pos hc2]
        exact ⟨⟨fun _ => Or.inr (Or.inr h3), fun _ => hres⟩, fun _ _ hne => absurd h3 hne⟩
      · have hc2 : ¬((doc.getD (doc.length - 1) "").length < 1) := by omega
        have hrhs : ¬(cfg.insert_final_newline.truthy = false ∨ doc.length = 0 ∨
            (doc.getD (doc.length - 1) "").length = 0) := by
          rintro (hf | hz | he)
          · rw [h1] at hf
            exact absurd hf (by decide)
          · exact h2 hz
          · exact h3 he
        by_cases hstr : ∃ s, cfg.end_of_line = JSVal.str s
        · obtain ⟨s, hcfg⟩ := hstr
          have hnl : newline cfg = some
              (if jsStrToLower s == "cr" then "\r"
               else if jsStrToLower s == "crlf" then "\r\n" else "\n") := by
            rw [newline, hcfg]
            rfl
          have hres : insertFinalNewlineTransform cfg doc =
              .insert (doc.length - 1) (doc.getD (doc.length - 1) "").length
                (if jsStrToLower s == "cr" then "\r"
                 else if jsStrToLower s == "crlf" then "\r\n" else "\n") := by
            unfold insertFinalNewlineTransform
            rw [hc1]
            simp only [Bool.false_eq_true, if_false]
            rw [if_neg hc2, hnl]
          refine ⟨⟨fun h => absurd (hres.symm.trans h) (by simp), fun h => absurd h hrhs⟩,
            fun _ _ _ => ⟨fun s' hs' => ?_, fun hno => absurd hcfg (hno s)⟩⟩
          rw [hcfg] at hs'
          injection hs' with hss
          subst hss
          exact hres
        · have hnone : jsToLowerCase cfg.end_of_line = none := by
            cases h : cfg.end_of_line with
            | str s => exact absurd ⟨s, h⟩ hstr
            | undef => rfl
            | nan => rfl
            | bool b => rfl
            | num n => rfl
          have hnl : newline cfg = none := by
            rw [newline, hnone]
            rfl
          have hres : insertFinalNewlineTransform cfg doc = .error := by
            unfold insertFinalNewlineTransform
            rw [hc1]
            simp only [Bool.false_eq_true, if_false]
            rw [if_neg hc2, hnl]
          exact ⟨⟨fun h => absurd (hres.symm.trans h) (by simp), fun h => absurd h hrhs⟩,
            fun _ _ _ => ⟨fun s' hs' => absurd ⟨s', hs'⟩ hstr, fun _ => hres⟩⟩
  · have h1' : cfg.insert_final_newline.truthy = false := by
      revert h1
      cases cfg.insert_final_newline.truthy <;> simp
    have hres : insertFinalNewlineTransform cfg doc = .noop := by
      unfold insertFinalNewlineTransform
      rw [h1']
      rfl
    exact ⟨⟨fun _ => Or.inl h1', fun _ => hres⟩, fun h => absurd h h1⟩

/-- **C2** (witness): mixed-case `"CRLF"` on a one-line document
`["x"]` inserts `\r\n` at the end of the last line. -/
theorem insertFinalNewline_spec_witness :
    insertFinalNewlineTransform
      { insert_final_newline := .bool true, end_of_line := .str "CRLF" } ["x"] =
      .insert 0 1 "\r\n" := by
  have h := ((insertFinalNewline_spec
      { insert_final_newline := .bool true, end_of_line := .str "CRLF" } ["x"]).2
      (by decide) (by decide) (by decide)).1 "CRLF" rfl
  exact h.trans (by decide)

/-- The normalization in `_onDidOpenDocument`: if
`config.indent_size === 'tab'` then `config.indent_size =
config.tab_width`, performed on the parsed config before it is
stored. -/
def normalizeConfig (config : EditorConfig) : EditorConfig :=
  if config.indent_size == .str "tab" then { config with indent_size := config.tab_width }
  else config

/-- Whether a JS value fits the declared type `tab_width?: number` of
`editorconfig.knownProps`: a number, or absent. -/
def isNumOrUndef : JSVal → Bool
  | .undef => true
  | .num _ => true
  | _ => false

/-- A vscode `TextDocument` as the watcher sees it: a file name and the
untitled flag. -/
structure TextDocument where
  fileName : String
  isUntitled : Bool
deriving DecidableEq, Repr

/-- The `_documentToConfigMap` object: path-keyed entries. -/
abbrev ConfigMap := List (String × EditorConfig)

/-- JS object indexing `map[path]`: the entry stored under `path`, if
any. -/
def lookupConfig : ConfigMap → String → Option EditorConfig
  | [], _ => none
  | e :: rest, path => if e.1 == path then some e.2 else lookupConfig rest path

/-- JS object assignment `map[path] = c`: overwrite the entry when the
key exists, otherwise add it. -/
def storeConfig (m : ConfigMap) (path : String) (c : EditorConfig) : ConfigMap :=
  if (lookupConfig m path).isSome then
    m.map fun e => if e.1 == path then (path, c) else e
  else m ++ [(path, c)]

/-- `DocumentWatcher._onDidOpenDocument`: skip untitled documents and
already-resolved paths; otherwise resolve via the external
`editorconfig.parse` collaborator (`none` models a rejected promise,
whose continuation never stores anything), normalize, and store. -/
def onDidOpenDocument (parse : String → Option EditorConfig) (m : ConfigMap)
    (doc : TextDocument) : ConfigMap :=
  if doc.isUntitled then m
  else if (lookupConfig m doc.fileName).isSome then m
  else
    match parse doc.fileName with
    | none => m
    | some config => storeConfig m doc.fileName (normalizeConfig config)

/-- `DocumentWatcher._rebuildConfigMap`: reset the map to empty, then
resolve every open document (the single-threaded event loop
sequentializes the per-document resolutions). -/
def rebuildConfigMap (parse : String → Option EditorConfig)
    (openDocs : List TextDocument) : ConfigMap :=
  openDocs.foldl (onDidOpenDocument parse) []

/-- Outcome of `applyOnSaveTransformations`: skipped because no
configuration is cached for the path, skipped because no visible
editor shows the document, or the transform pipeline ran with the
cached configuration. -/
inductive SaveOutcome where
  | skippedNoConfig
  | skippedNoEditor
  | ranTransforms (cfg : EditorConfig)
deriving DecidableEq, Repr

/-- `applyOnSaveTransformations`: look up the saved document's cached
configuration; absent means return without edits; with a configuration
but no visible editor, also return; otherwise run the transforms. -/
def applyOnSaveTransformations (m : ConfigMap) (path : String)
    (hasEditor : Bool) : SaveOutcome :=
  match lookupConfig m path with
  | none => .skippedNoConfig
  | some cfg => if hasEditor then .ranTransforms cfg else .skippedNoEditor

/-- Node's `path.basename` for the paths that reach the save handler
(no trailing slash): the component after the last `/`. -/
def basename (p : String) : String :=
  ⟨(p.data.reverse.takeWhile (fun c => c != '/')).reverse⟩

/-- One step in the save handler's trace: the rebuild promise settling,
or the transform pipeline starting on a file. -/
inductive SaveAction where
  | rebuildComplete
  | runTransforms (fileName : String)
deriving DecidableEq, Repr

/-- The `onDidSaveTextDocument` handler: for a saved `.editorconfig`
file, `_rebuildConfigMap().then(applyOnSaveTransformations...)` — the
rebuild settles, then the transforms run; for any other file the
transforms run directly, with no rebuild. -/
def onDidSaveTextDocument (savedFileName : String) : List SaveAction :=
  if basename savedFileName == ".editorconfig" then
    [.rebuildComplete, .runTransforms savedFileName]
  else [.runTransforms savedFileName]

/-- A successful lookup comes from an entry of the map with that
key. -/
theorem lookupConfig_mem (m : ConfigMap) (p : String) (c : EditorConfig) :
    lookupConfig m p = some c → ∃ e, e ∈ m ∧ e.1 = p ∧ e.2 = c := by
  induction m with
  | nil => intro h; exact absurd h (by simp [lookupConfig])
  | cons e rest ih =>
    intro h
    by_cases he : (e.1 == p) = true
    · rw [lookupConfig, if_pos he] at h
      injection h with h
      exact ⟨e, List.mem_cons_self e rest, eq_of_beq he, h⟩
    · rw [lookupConfig, if_neg he] at h
      obtain ⟨e', hmem, h1, h2⟩ := ih h
      exact ⟨e', List.mem_cons_of_mem e hmem, h1, h2⟩

/-- Lookup after appending a single fresh entry. -/
theorem lookupConfig_append_single (m : ConfigMap) (path : String) (c : EditorConfig)
    (p : String) :
    lookupConfig (m ++ [(path, c)]) p =
      match lookupConfig m p with
      | some c' => some c'
      | none => if path == p then some c else none := by
  induction m with
  | nil => rfl
  | cons e rest ih =>
    by_cases he : (e.1 == p) = true
    · rw [List.cons_append, lookupConfig, if_pos he, lookupConfig, if_pos he]
    · rw [List.cons_append, lookupConfig, if_neg he, lookupConfig, if_neg he]
      exact ih

/-- An existing entry survives `_onDidOpenDocument` unchanged. -/
theorem lookupConfig_onDidOpen_some (parse : String → Option EditorConfig)
    (m : ConfigMap) (d : TextDocument) (p : String) (c : EditorConfig)
    (h : lookupConfig m p = some c) :
    lookupConfig (onDidOpenDocument parse m d) p = some c := by
  unfold onDidOpenDocument
  by_cases hu : d.isUntitled = true
  · rw [if_pos hu]; exact h
  · rw [if_neg hu]
    by_cases hl : (lookupConfig m d.fileName).isSome = true
    · rw [if_pos hl]; exact h
    · rw [if_neg hl]
      cases hp : parse d.fileName with
      | none => exact h
      | some cfg =>
        show lookupConfig (storeConfig m d.fileName (normalizeConfig cfg)) p = some c
        unfold storeConfig
        rw [if_neg hl, lookupConfig_append_single, h]

/-- A path whose resolution fails gains no entry. -/
theorem lookupConfig_onDidOpen_none (parse : String → Option EditorConfig)
    (m : ConfigMap) (d : TextDocument) (p : String)
    (hp : parse p = none) (hm : lookupConfig m p = none) :
    lookupConfig (onDidOpenDocument parse m d) p = none := by
  unfold onDidOpenDocument
  by_cases hu : d.isUntitled = true
  · rw [if_pos hu]; exact hm
  · rw [if_neg hu]
    by_cases hl : (lookupConfig m d.fileName).isSome = true
    · rw [if_pos hl]; exact hm
    · rw [if_neg hl]
      cases hpd : parse d.fileName with
      | none => exact hm
      | some cfg =>
        show lookupConfig (storeConfig m d.fileName (normalizeConfig cfg)) p = none
        unfold storeConfig
        rw [if_neg hl, lookupConfig_append_single, hm]
        by_cases hd : (d.fileName == p) = true
        · have hdp : d.fileName = p := eq_of_beq hd
          rw [hdp, hp] at hpd
          exact Option.noConfusion hpd
        · rw [if_neg hd]

/-- After `_onDidOpenDocument` on a titled document whose resolution
succeeds, the document's path has an entry. -/
theorem lookupConfig_onDidOpen_self (parse : String → Option EditorConfig)
    (m : ConfigMap) (d : TextDocument) (cfg : EditorConfig)
    (hu : d.isUntitled = false) (hp : parse d.fileName = some cfg) :
    (lookupConfig (onDidOpenDocument parse m d) d.fileName).isSome = true := by
  unfold onDidOpenDocument
  rw [if_neg (by simp [hu])]
  by_cases hl : (lookupConfig m d.fileName).isSome = true
  · rw [if_pos hl]; exact hl
  · rw [if_neg hl]
    simp only [hp]
    show (lookupConfig (storeConfig m d.fileName (normalizeConfig cfg)) d.fileName).isSome = true
    unfold storeConfig
    rw [if_neg hl, lookupConfig_append_single]
    have hm : lookupConfig m d.fileName = none := by
      cases hmm : lookupConfig m d.fileName with
      | none => rfl
      | some c => rw [hmm] at hl; exact absurd rfl hl
    rw [hm]
    simp

/-- Every entry of the map after `_onDidOpenDocument` was already there
or is the normalized result of parsing its own path. -/
theorem mem_onDidOpenDocument (parse : String → Option EditorConfig)
    (m : ConfigMap) (d : TextDocument) (e : String × EditorConfig)
    (h : e ∈ onDidOpenDocument parse m d) :
    e ∈ m ∨ ∃ cfg, parse e.1 = some cfg ∧ e.2 = normalizeConfig cfg := by
  unfold onDidOpenDocument at h
  by_cases hu : d.isUntitled = true
  · rw [if_pos hu] at h; exact Or.inl h
  · rw [if_neg hu] at h
    by_cases hl : (lookupConfig m d.fileName).isSome = true
    · rw [if_pos hl] at h; exact Or.inl h
    · rw [if_neg hl] at h
      cases hp : parse d.fileName with
      | none => rw [hp] at h; exact Or.inl h
      | some cfg =>
        rw [hp] at h
        have h2 : e ∈ storeConfig m d.fileName (normalizeConfig cfg) := h
        unfold storeConfig at h2
        rw [if_neg hl] at h2
        rcases List.mem_append.mp h2 with h | h
        · exact Or.inl h
        · have he : e = (d.fileName, normalizeConfig cfg) := by simpa using h
          subst he
          exact Or.inr ⟨cfg, hp, rfl⟩

/-- Entry persistence through the whole rebuild fold. -/
theorem foldl_lookup_some (parse : String → Option EditorConfig) :
    ∀ (docs : List TextDocument) (m : ConfigMap) (p : String) (c : EditorConfig),
      lookupConfig m p = some c →
      lookupConfig (docs.foldl (onDidOpenDocument parse) m) p = some c := by
  intro docs
  induction docs with
  | nil => intro m p c h; simpa using h
  | cons d rest ih =>
    intro m p c h
    simp only [List.foldl_cons]
    exact ih _ p c (lookupConfig_onDidOpen_some parse m d p c h)

/-- Absence persistence through the fold for paths whose resolution
fails. -/
theorem foldl_lookup_none (parse : String → Option EditorConfig) (p : String)
    (hp : parse p = none) :
    ∀ (docs : List TextDocument) (m : ConfigMap),
      lookupConfig m p = none →
      lookupConfig (docs.foldl (onDidOpenDocument parse) m) p = none := by
  intro docs
  induction docs with
  | nil => intro m h; simpa using h
  | cons d rest ih =>
    intro m h
    simp only [List.foldl_cons]
    exact ih _ (lookupConfig_onDidOpen_none parse m d p hp h)

/-- Every entry after the fold is a normalized parse result for its own
path, provided that held of the starting map. -/
theorem foldl_entries_normalized (parse : String → Option EditorConfig) :
    ∀ (docs : List TextDocument) (m : ConfigMap),
      (∀ e, e ∈ m → ∃ cfg, parse e.1 = some cfg ∧ e.2 = normalizeConfig cfg) →
      ∀ e, e ∈ docs.foldl (onDidOpenDocument parse) m →
        ∃ cfg, parse e.1 = some cfg ∧ e.2 = normalizeConfig cfg := by
  intro docs
  induction docs with
  | nil => intro m hm e he; exact hm e (by simpa using he)
  | cons d rest ih =>
    intro m hm e he
    simp only [List.foldl_cons] at he
    refine ih _ (fun e' he' => ?_) e he
    rcases mem_onDidOpenDocument parse m d e' he' with h | h
    · exact hm e' h
    · exact h

/-- Every entry of a rebuilt map is the normalized parse result of its
own path. -/
theorem rebuild_entries_normalized (parse : String → Option EditorConfig)
    (docs : List TextDocument) :
    ∀ e, e ∈ rebuildConfigMap parse docs →
      ∃ cfg, parse e.1 = some cfg ∧ e.2 = normalizeConfig cfg :=
  foldl_entries_normalized parse docs [] (fun e he => absurd he (by simp))

/-- A config with a well-typed `tab_width` never keeps the literal
`tab` marker in `indent_size` after normalization. -/
theorem normalizeConfig_ne_tab (config : EditorConfig)
    (h : isNumOrUndef config.tab_width = true) :
    (normalizeConfig config).indent_size ≠ .str "tab" := by
  by_cases hi : (config.indent_size == JSVal.str "tab") = true
  · rw [normalizeConfig, if_pos hi]
    show config.tab_width ≠ .str "tab"
    cases hw : config.tab_width with
    | undef => exact fun hc => JSVal.noConfusion hc
    | num n => exact fun hc => JSVal.noConfusion hc
    | nan => rw [hw] at h; exact Bool.noConfusion h
    | bool b => rw [hw] at h; exact Bool.noConfusion h
    | str s => rw [hw] at h; exact Bool.noConfusion h
  · rw [normalizeConfig, if_neg hi]
    intro hc
    exact hi (by rw [hc]; rfl)

/-- **C3**: a resolved config with `indent_size == "tab"` is stored
with `indent_size` rewritten to `tab_width`; with a well-typed
(numeric or absent) `tab_width` the normalized config never keeps the
literal marker, and every entry of a rebuilt map is free of it. -/
theorem indentSizeTab_normalized :
    (∀ config : EditorConfig, config.indent_size = .str "tab" →
      (normalizeConfig config).indent_size = config.tab_width) ∧
    (∀ config : EditorConfig, isNumOrUndef config.tab_width = true →
      (normalizeConfig config).indent_size ≠ .str "tab") ∧
    (∀ (parse : String → Option EditorConfig) (docs : List TextDocument),
      (∀ p cfg, parse p = some cfg → isNumOrUndef cfg.tab_width = true) →
      ∀ e, e ∈ rebuildConfigMap parse docs → e.2.indent_size ≠ .str "tab") := by
  refine ⟨fun config h => ?_, normalizeConfig_ne_tab, fun parse docs hparse e he => ?_⟩
  · rw [normalizeConfig, if_pos (by rw [h]; rfl)]
  · obtain ⟨cfg, hpc, he2⟩ := rebuild_entries_normalized parse docs e he
    rw [he2]
    exact normalizeConfig_ne_tab cfg (hparse e.1 cfg hpc)

/-- **C3** (witness): the marker `tab` with `tab_width = 4` is stored
as `indent_size = 4`. -/
theorem indentSizeTab_normalized_witness :
    (normalizeConfig { indent_size := .str "tab", tab_width := .num 4 }).indent_size =
      ({ indent_size := .str "tab", tab_width := .num 4 } : EditorConfig).tab_width ∧
    (normalizeConfig { indent_size := .str "tab", tab_width := .num 4 }).indent_size ≠
      .str "tab" :=
  ⟨indentSizeTab_normalized.1 { indent_size := .str "tab", tab_width := .num 4 } rfl,
   indentSizeTab_normalized.2.1 { indent_size := .str "tab", tab_width := .num 4 } (by decide)⟩

/-- **C8**: saving a `.editorconfig` file produces the trace
rebuild-then-transforms (the rebuild completes at a strictly earlier
position than any transform run on that file); saving any other file
produces only the transform run, with no rebuild. -/
theorem saveConfigFile_rebuild_order :
    ∀ fileName : String,
      (basename fileName = ".editorconfig" →
        onDidSaveTextDocument fileName =
          [SaveAction.rebuildComplete, SaveAction.runTransforms fileName] ∧
        ∀ i j : Nat, (onDidSaveTextDocument fileName)[i]? = some SaveAction.rebuildComplete →
          (onDidSaveTextDocument fileName)[j]? = some (SaveAction.runTransforms fileName) →
          i < j) ∧
      (basename fileName ≠ ".editorconfig" →
        onDidSaveTextDocument fileName = [SaveAction.runTransforms fileName] ∧
        SaveAction.rebuildComplete ∉ onDidSaveTextDocument fileName) := by
  intro fileName
  constructor
  · intro h
    have heq : onDidSaveTextDocument fileName =
        [SaveAction.rebuildComplete, SaveAction.runTransforms fileName] := by
      rw [onDidSaveTextDocument, if_pos (by rw [h]; rfl)]
    refine ⟨heq, fun i j hi hj => ?_⟩
    rw [heq] at hi hj
    cases i with
    | zero =>
      cases j with
      | zero => simp at hj
      | succ j =>
        cases j with
        | zero => decide
        | succ j => simp at hj
    | succ i =>
      cases i with
      | zero => simp at hi
      | succ i => simp at hi
  · intro h
    have hb : (basename fileName == ".editorconfig") = false := by
      rw [beq_eq_false_iff_ne]
      exact h
    have heq : onDidSaveTextDocument fileName = [SaveAction.runTransforms fileName] := by
      rw [onDidSaveTextDocument, if_neg (by simp [hb])]
    refine ⟨heq, ?_⟩
    rw [heq]
    simp

/-- **C8** (witness): both cases at concrete paths. -/
theorem saveConfigFile_rebuild_order_witness :
    onDidSaveTextDocument "/w/.editorconfig" =
      [SaveAction.rebuildComplete, SaveAction.runTransforms "/w/.editorconfig"] ∧
    onDidSaveTextDocument "/w/a.txt" = [SaveAction.runTransforms "/w/a.txt"] :=
  ⟨((saveConfigFile_rebuild_order "/w/.editorconfig").1 (by decide)).1,
   ((saveConfigFile_rebuild_order "/w/a.txt").2 (by decide)).1⟩

/-- **C9**: a resolution failure for document A's path does not prevent
the resolution requested for document B in the same rebuild from
succeeding and being stored; the failed path gets no entry, so its
lookup is absent and the save pipeline skips rather than crashes. -/
theorem resolutionFailure_isolated :
    ∀ (parse : String → Option EditorConfig) (docs : List TextDocument)
      (A B : TextDocument) (cfg : EditorConfig) (hasEditor : Bool),
      parse A.fileName = none →
      B ∈ docs → B.isUntitled = false → parse B.fileName = some cfg →
      lookupConfig (rebuildConfigMap parse docs) B.fileName = some (normalizeConfig cfg) ∧
      lookupConfig (rebuildConfigMap parse docs) A.fileName = none ∧
      applyOnSaveTransformations (rebuildConfigMap parse docs) A.fileName hasEditor =
        .skippedNoConfig := by
  intro parse docs A B cfg hasEditor hA hB hBu hBp
  have hAnone : lookupConfig (rebuildConfigMap parse docs) A.fileName = none :=
    foldl_lookup_none parse A.fileName hA docs [] rfl
  have hBsome : lookupConfig (rebuildConfigMap parse docs) B.fileName =
      some (normalizeConfig cfg) := by
    obtain ⟨l1, l2, hsplit⟩ := List.append_of_mem hB
    have hre : rebuildConfigMap parse docs =
        l2.foldl (onDidOpenDocument parse)
          (onDidOpenDocument parse (l1.foldl (onDidOpenDocument parse) []) B) := by
      rw [rebuildConfigMap, hsplit, List.foldl_append, List.foldl_cons]
    have hs : (lookupConfig
        (onDidOpenDocument parse (l1.foldl (onDidOpenDocument parse) []) B)
        B.fileName).isSome = true :=
      lookupConfig_onDidOpen_self parse _ B cfg hBu hBp
    obtain ⟨c, hc⟩ := Option.isSome_iff_exists.mp hs
    have hend : lookupConfig (rebuildConfigMap parse docs) B.fileName = some c := by
      rw [hre]
      exact foldl_lookup_some parse l2 _ B.fileName c hc
    obtain ⟨e, hmem, he1, he2⟩ := lookupConfig_mem _ _ _ hend
    obtain ⟨cfg', hpc', he2'⟩ := rebuild_entries_normalized parse docs e hmem
    rw [he1, hBp] at hpc'
    injection hpc' with hcc
    rw [hend, ← he2, he2', ← hcc]
  refine ⟨hBsome, hAnone, ?_⟩
  unfold applyOnSaveTransformations
  rw [hAnone]

/-- C9 witness stub for the external resolver: `/w/b` resolves, every
other path fails. -/
def parseStub : String → Option EditorConfig :=
  fun p => if p == "/w/b" then some { indent_style := .str "tab" } else none

/-- **C9** (witness): with `/w/a` failing and `/w/b` succeeding in the
same rebuild, `/w/b` is stored and `/w/a` stays absent and is
skipped. -/
theorem resolutionFailure_isolated_witness :
    lookupConfig (rebuildConfigMap parseStub [⟨"/w/a", false⟩, ⟨"/w/b", false⟩]) "/w/b" =
      some (normalizeConfig { indent_style := .str "tab" }) ∧
    lookupConfig (rebuildConfigMap parseStub [⟨"/w/a", false⟩, ⟨"/w/b", false⟩]) "/w/a" =
      none ∧
    applyOnSaveTransformations
      (rebuildConfigMap parseStub [⟨"/w/a", false⟩, ⟨"/w/b", false⟩]) "/w/a" true =
      .skippedNoConfig := by
  have h := resolutionFailure_isolated parseStub [⟨"/w/a", false⟩, ⟨"/w/b", false⟩]
    ⟨"/w/a", false⟩ ⟨"/w/b", false⟩ { indent_style := .str "tab" } true
    (by decide) (by decide) rfl (by decide)
  exact h

/-- The property list both `generateEditorConfig` variants iterate, in
source order. -/
def supportedProperties : List String :=
  ["indent_style", "indent_size", "tab_width"]

/-- `settings[setting]` / `settings.hasOwnProperty(setting)` for the
settings object produced by `Utils.toEditorConfig`: the dynamic
property read; `undef` when the property was never set. -/
def getProp (settings : EditorConfig) : String → JSVal
  | "indent_style" => settings.indent_style
  | "indent_size" => settings.indent_size
  | "tab_width" => settings.tab_width
  | _ => JSVal.undef

/-- JS `Array.prototype.join(sep)`. -/
def jsJoin (sep : String) : List String → String
  | [] => ""
  | [x] => x
  | x :: y :: xs => x ++ sep ++ jsJoin sep (y :: xs)

/-- The string-concatenation `generateEditorConfig` variant: start from
the template `"root = true\n\n[*]\n"` and append
`` `${setting} = ${settings[setting]}\n` `` for each property the
settings object owns. -/
def generateEditorConfigConcat (settings : EditorConfig) : String :=
  supportedProperties.foldl
    (fun fileContents setting =>
      if getProp settings setting != .undef then
        fileContents ++ (setting ++ " = " ++ jsToString (getProp settings setting) ++ "\n")
      else fileContents)
    "root = true\n\n[*]\n"

/-- The array-join `generateEditorConfig` variant: start from
`['root = true', '', '[*]']`, push `` `${setting} = ${settings[setting]}` ``
for each owned property, and `join('\n')`. -/
def generateEditorConfigJoin (settings : EditorConfig) : String :=
  jsJoin "\n"
    (supportedProperties.foldl
      (fun fileContents setting =>
        if getProp settings setting != .undef then
          fileContents ++ [setting ++ " = " ++ jsToString (getProp settings setting)]
        else fileContents)
      ["root = true", "", "[*]"])

/-- **C10** (counterexample): already on the empty settings mapping the
two variants differ — the concatenation variant ends with a newline,
the join variant does not. -/
theorem generateEditorConfig_variants_counterexample :
    generateEditorConfigConcat {} ≠ generateEditorConfigJoin {} := by
  decide

/-- Joining after appending one element to a nonempty list. -/
theorem jsJoin_concat (sep : String) :
    ∀ (init : List String) (x : String), init ≠ [] →
      jsJoin sep (init ++ [x]) = jsJoin sep init ++ sep ++ x := by
  intro init
  induction init with
  | nil => intro x h; exact absurd rfl h
  | cons a rest ih =>
    intro x h
    cases rest with
    | nil => rfl
    | cons b rest2 =>
      show a ++ sep ++ jsJoin sep ((b :: rest2) ++ [x]) =
        (a ++ sep ++ jsJoin sep (b :: rest2)) ++ sep ++ x
      rw [ih x (by simp)]
      simp [String.append_assoc]

/-- The two accumulation styles stay in the trailing-newline relation
throughout the shared property loop. -/
theorem foldl_concat_join (settings : EditorConfig) :
    ∀ (props : List String) (init : List String), init ≠ [] →
      props.foldl
        (fun fileContents setting =>
          if getProp settings setting != .undef then
            fileContents ++ (setting ++ " = " ++ jsToString (getProp settings setting) ++ "\n")
          else fileContents)
        (jsJoin "\n" init ++ "\n")
      = jsJoin "\n"
          (props.foldl
            (fun fileContents setting =>
              if getProp settings setting != .undef then
                fileContents ++ [setting ++ " = " ++ jsToString (getProp settings setting)]
              else fileContents)
            init) ++ "\n" := by
  intro props
  induction props with
  | nil => intro init h; rfl
  | cons p rest ih =>
    intro init h
    simp only [List.foldl_cons]
    by_cases hp : (getProp settings p != .undef) = true
    · rw [if_pos hp, if_pos hp]
      have hstep : jsJoin "\n" init ++ "\n" ++
          (p ++ " = " ++ jsToString (getProp settings p) ++ "\n") =
          jsJoin "\n" (init ++ [p ++ " = " ++ jsToString (getProp settings p)]) ++ "\n" := by
        rw [jsJoin_concat "\n" init _ h]
        simp [String.append_assoc]
      rw [hstep]
      exact ih (init ++ [p ++ " = " ++ jsToString (getProp settings p)]) (by simp)
    · rw [if_neg hp, if_neg hp]
      exact ih init h

/-- **C10** (amended): for every settings mapping the two variants
agree up to the final newline: the string-concatenation variant's
output is exactly the array-join variant's output followed by one
`\n`. -/
theorem generateEditorConfig_variants_agree :
    ∀ settings : EditorConfig,
      generateEditorConfigConcat settings = generateEditorConfigJoin settings ++ "\n" := by
  intro settings
  have hinit : ("root = true\n\n[*]\n" : String) =
      jsJoin "\n" ["root = true", "", "[*]"] ++ "\n" := by decide
  unfold generateEditorConfigConcat generateEditorConfigJoin
  rw [hinit]
  exact foldl_concat_join settings supportedProperties ["root = true", "", "[*]"] (by simp)
